import Mathlib

/-!
Verification development for the tbp-dedupe file-indexing and
duplicate-resolution engine.

The JavaScript core is shallowly embedded:

* external hash primitives (MD5 of a path string, MD5 of file contents) are
  abstract `String → String` parameters `pathHash` / `contentHash`;
* the SQLite `files` table is a list of records in insertion order, with the
  prepared statements (`insertFile`, `getFileById`, `getFilesByHash`,
  `getDuplicates`) modelled as pure functions on that list; SQLite text
  ordering (ORDER BY on a TEXT column) is byte order, embedded as
  code-point order `strLe` on the characters of the string;
* the directory tree is a rose tree (`FSEntry`/`FSList`); the result of
  statSync size lookup and stream readability are data of each file, so that
  stat and read failures are expressible; `fs.existsSync` relative to the
  base directory is membership among the relative paths of the tree;
* the on-disk file set seen by the resolution handlers is a list of relative
  paths (`Disk`); `fs.renameSync` / `fs.unlinkSync` fail (throw) exactly when
  the source path is absent, the modelled per-file I/O failure;
* fallible operations return `Except`; an uncaught JS exception is an
  `Except.error` propagated out of the enclosing function.
-/

/-- JS String.prototype.split on a single-character separator:
splitting the empty list yields one empty field, as "".split(sep) does. -/
def splitOnChar (sep : Char) : List Char → List (List Char)
  | [] => [[]]
  | c :: cs =>
    let rest := splitOnChar sep cs
    if c = sep then [] :: rest
    else match rest with
      | [] => [[c]]
      | r :: rs => (c :: r) :: rs

/-- The normalization step of parseFilePath (src/lib/scanner.js:30):
filePath.split('\\').join('/') replaces every backslash with a slash. -/
def normalizeSeps (p : String) : String :=
  ⟨p.data.map (fun c => if c = '\\' then '/' else c)⟩

/-- JS normalizedPath.split('/') from src/lib/scanner.js:31-32. -/
def splitSlash (p : String) : List String :=
  (splitOnChar '/' p.data).map (fun cs => ⟨cs⟩)

/-- JS Array.prototype.join('/') from src/lib/scanner.js:32. -/
def joinSlash (parts : List String) : String :=
  ⟨List.intercalate ['/'] (parts.map (·.data))⟩

/-- Result shape of parseFilePath (src/lib/scanner.js:34-38). -/
structure FileInfo where
  id : String
  fullname : String
  directory : String
deriving DecidableEq, Repr

/-- parseFilePath (src/lib/scanner.js:28-39). The path is normalized to
forward slashes, the last slash-separated component is the file name, the
rest joined is the directory, and the id is the path hash of
directory ++ "/" ++ fileName. hashPath (MD5, src/lib/scanner.js:16-19) is
the abstract parameter pathHash. Note the function is total: there is no
validation and no error branch, for the empty string included. -/
def parseFilePath (pathHash : String → String) (filePath : String) : FileInfo :=
  let normalizedPath := normalizeSeps filePath
  let fileName := (splitSlash normalizedPath).getLastD ""
  let directory := joinSlash (splitSlash normalizedPath).dropLast
  { id := pathHash (directory ++ "/" ++ fileName)
    fullname := fileName
    directory := directory }

/-- Byte-order comparison of character lists, the embedding of SQLite's
BINARY collation used by ORDER BY path. -/
def charListLe : List Char → List Char → Bool
  | [], _ => true
  | _ :: _, [] => false
  | a :: as, b :: bs =>
    if a.toNat < b.toNat then true
    else if b.toNat < a.toNat then false
    else charListLe as bs

/-- Byte-order comparison on strings (SQLite ORDER BY on a TEXT column). -/
def strLe (a b : String) : Bool := charListLe a.data b.data

/-- One row of the files table (src/lib/scanner.js:336-343):
id TEXT PRIMARY KEY, path TEXT, hash TEXT, size INTEGER. -/
structure FileRecord where
  id : String
  path : String
  hash : String
  size : Nat
deriving DecidableEq, Repr

/-- The files table in insertion order. -/
abbrev DB := List FileRecord

/-- Prepared statement getFileById (src/lib/scanner.js:389-393):
SELECT ... FROM files WHERE id = ?. -/
def getFileById (db : DB) (i : String) : Option FileRecord :=
  db.find? (fun r => r.id == i)

/-- Prepared statement insertFile (src/lib/scanner.js:366-369):
INSERT INTO files (id, path, hash, size) VALUES (...). The id column is the
primary key, so the insert fails (the statement throws) exactly when a row
with the same id exists; the Bool reports success. -/
def insertFile (db : DB) (r : FileRecord) : DB × Bool :=
  if (getFileById db r.id).isSome then (db, false) else (db ++ [r], true)

/-- Modelled content and I/O behaviour of one file on disk: its byte
content (abstract), the statSync size answer (none = stat throws), and
whether a read stream of it succeeds. -/
structure FileData where
  content : String
  sizeStat : Option Nat
  readable : Bool
deriving DecidableEq, Repr

/-- hashFile (src/lib/scanner.js:48-74): streams the file through an MD5
accumulator, resolving with the digest on end and rejecting on a stream
error. The digest computation is the abstract parameter contentHash. -/
def hashFile (contentHash : String → String) (d : FileData) : Except String String :=
  if d.readable then .ok (contentHash d.content) else .error "EIO"

/-- getFileSize (src/lib/scanner.js:83-91): statSync size inside
try/catch, returning 0 on any stat error. -/
def getFileSize (d : FileData) : Nat := d.sizeStat.getD 0

mutual
/-- A directory entry: a file with its data, or a subdirectory. -/
inductive FSEntry where
  | file (name : String) (data : FileData)
  | dir (name : String) (entries : FSList)
/-- A directory listing (the result of fs.readdirSync, in listing order). -/
inductive FSList where
  | nil
  | cons (e : FSEntry) (rest : FSList)
end

mutual
/-- Relative paths (path, data) of the files in one entry, where rel is the
relative path of the containing directory; mirrors how processDirectory
forms path.relative(baseDir, fullPath) while recursing. -/
def filesOfEntry (rel : String) : FSEntry → List (String × FileData)
  | .file name d => [(rel ++ "/" ++ name, d)]
  | .dir name es => filesOfList (rel ++ "/" ++ name) es
/-- Relative paths (path, data) of all files under a listing, depth-first
in listing order. -/
def filesOfList (rel : String) : FSList → List (String × FileData)
  | .nil => []
  | .cons e rest => filesOfEntry rel e ++ filesOfList rel rest
end

mutual
/-- Relative paths of every entry (files and directories) in one entry. -/
def pathsOfEntry (rel : String) : FSEntry → List String
  | .file name _ => [rel ++ "/" ++ name]
  | .dir name es => (rel ++ "/" ++ name) :: pathsOfList (rel ++ "/" ++ name) es
/-- Relative paths of every entry (files and directories) under a listing. -/
def pathsOfList (rel : String) : FSList → List String
  | .nil => []
  | .cons e rest => pathsOfEntry rel e ++ pathsOfList rel rest
end

/-- All relative paths that exist under the base directory when the scanned
target directory (named targetName, holding entries) is the only content:
the target itself plus everything below it. Relative paths carry the target
directory name as first segment because baseDir is the target's parent. -/
def treePaths (targetName : String) (entries : FSList) : List String :=
  targetName :: pathsOfList targetName entries

/-- fs.existsSync(path.join(baseDir, p)) for a relative path p, against the
tree rooted at the target directory. -/
def existsSync (targetName : String) (entries : FSList) (p : String) : Bool :=
  decide (p ∈ treePaths targetName entries)

mutual
/-- One iteration of the for-loop of processDirectory
(src/lib/scanner.js:257-299): a subdirectory recurses; a file gets its
relative path, its id via parseFilePath, is skipped when getFileById finds
it, and otherwise is statted (getFileSize), hashed (hashFile — NOT inside
the try/catch, so a hash rejection propagates) and inserted (insertFile —
inside try/catch, so an insert failure is logged and the loop continues).
Returns the database plus (new files added, their total size), the counters
of the part_002 variant of processDirectory. -/
def processEntry (ph ch : String → String) (db : DB) (rel : String) :
    FSEntry → Except String (DB × Nat × Nat)
  | .file name d =>
    let relativePath := rel ++ "/" ++ name
    let fileInfo := parseFilePath ph relativePath
    match getFileById db fileInfo.id with
    | some _ => .ok (db, 0, 0)
    | none =>
      let fileSize := getFileSize d
      match hashFile ch d with
      | .error e => .error e
      | .ok fileHash =>
        match insertFile db { id := fileInfo.id, path := relativePath,
                              hash := fileHash, size := fileSize } with
        | (db', true) => .ok (db', 1, fileSize)
        | (db', false) => .ok (db', 0, 0)
  | .dir name es => processDirectory ph ch db (rel ++ "/" ++ name) es
/-- processDirectory (src/lib/scanner.js:253-300): loops over the listing,
threading the database; the first uncaught error (a hashFile rejection)
aborts the whole loop and propagates. -/
def processDirectory (ph ch : String → String) (db : DB) (rel : String) :
    FSList → Except String (DB × Nat × Nat)
  | .nil => .ok (db, 0, 0)
  | .cons e rest =>
    match processEntry ph ch db rel e with
    | .error er => .error er
    | .ok (db1, a1, s1) =>
      match processDirectory ph ch db1 rel rest with
      | .error er => .error er
      | .ok (db2, a2, s2) => .ok (db2, a1 + a2, s1 + s2)
end

/-- cleanupMissingFiles (src/lib/scanner.js:134-168): for every record,
stat its path with existsSync and DELETE the row when absent, counting the
removed rows and their total size. The surviving table is the filter of
rows whose path still exists; onDisk is the existsSync oracle. -/
def cleanupMissingFiles (onDisk : String → Bool) (db : DB) : DB × Nat × Nat :=
  (db.filter (fun r => onDisk r.path),
   (db.filter (fun r => !onDisk r.path)).length,
   ((db.filter (fun r => !onDisk r.path)).map (·.size)).sum)

/-- Aggregate outcome of scanDirectory: the resulting table, new-file count
and size from processDirectory, removed count and size from
cleanupMissingFiles. -/
structure ScanResult where
  db : DB
  newFilesAdded : Nat
  newFilesSize : Nat
  removedCount : Nat
  removedSize : Nat
deriving DecidableEq, Repr

/-- scanDirectory (src/lib/scanner.js:196-240): when a database already
exists (dbExists) it first runs cleanupMissingFiles against the tree, then
runs processDirectory from the target directory, whose relative path is its
own name targetName (baseDir is the parent). Progress rendering and the
scan metadata timestamps are presentation-only and not modelled. -/
def scanDirectory (ph ch : String → String) (dbExists : Bool)
    (targetName : String) (entries : FSList) (db : DB) :
    Except String ScanResult :=
  let cleaned := if dbExists then cleanupMissingFiles (existsSync targetName entries) db
                 else (db, 0, 0)
  match processDirectory ph ch cleaned.1 targetName entries with
  | .error e => .error e
  | .ok (db', added, addedSize) =>
    .ok { db := db', newFilesAdded := added, newFilesSize := addedSize,
          removedCount := cleaned.2.1, removedSize := cleaned.2.2 }

/-- SQLite ORDER BY path on file rows, as a relation. -/
def pathLe (a b : FileRecord) : Prop := strLe a.path b.path = true

instance : DecidableRel pathLe :=
  fun a b => inferInstanceAs (Decidable (strLe a.path b.path = true))

/-- Prepared statement getFilesByHash (src/lib/scanner.js:381-386):
SELECT path, size FROM files WHERE hash = ? ORDER BY path. The model keeps
whole rows; the handlers only read path and size. -/
def getFilesByHash (db : DB) (h : String) : List FileRecord :=
  (db.filter (fun r => r.hash == h)).insertionSort pathLe

/-- One row of getDuplicates (src/lib/scanner.js:372-378): a representative
path and size, the shared hash, and the member count of the group. -/
structure DupGroup where
  path : String
  hash : String
  size : Nat
  count : Nat
deriving DecidableEq, Repr

/-- ORDER BY path on duplicate groups, as a relation. -/
def groupLe (a b : DupGroup) : Prop := strLe a.path b.path = true

instance : DecidableRel groupLe :=
  fun a b => inferInstanceAs (Decidable (strLe a.path b.path = true))

/-- Prepared statement getDuplicates (src/lib/scanner.js:372-378):
SELECT path, hash, size, COUNT(*) as count FROM files GROUP BY hash
HAVING count > 1 ORDER BY path. Groups are formed per distinct hash; the
bare path and size columns come from a representative row of the group
(SQLite picks an unspecified row; the model picks the first in table
order). -/
def getDuplicates (db : DB) : List DupGroup :=
  (((db.map (·.hash)).dedup).filterMap (fun h =>
    match db.filter (fun r => r.hash == h) with
    | [] => none
    | r :: rest =>
      if 1 < (r :: rest).length then
        some { path := r.path, hash := h, size := r.size, count := (r :: rest).length }
      else none)).insertionSort groupLe

/-- The set of relative paths present on disk under baseDir, as seen by the
resolution handlers. -/
abbrev Disk := List String

/-- fs.renameSync(baseDir/src, baseDir/dst): throws ENOENT when the source
path does not exist, otherwise the file now exists at dst and no longer at
src (the destination directories are created on demand by the handlers). -/
def renameSync (disk : Disk) (src dst : String) : Except String Disk :=
  if disk.contains src then .ok (dst :: disk.erase src) else .error "ENOENT"

/-- fs.unlinkSync(baseDir/p): throws ENOENT when the path does not exist,
otherwise removes it. -/
def unlinkSync (disk : Disk) (p : String) : Except String Disk :=
  if disk.contains p then .ok (disk.erase p) else .error "ENOENT"

/-- The JS files.reduce((shortest, current) => current.path.length <
shortest.path.length ? current : shortest) of src/unnamed/part_001:69-71,
applied to a non-empty list split as head and tail (reduce with no initial
value starts from the first element). -/
def reduceShortest (f : FileRecord) (rest : List FileRecord) : FileRecord :=
  rest.foldl
    (fun shortest current =>
      if current.path.length < shortest.path.length then current else shortest) f

/-- The move loop of the keep-original handler
(src/unnamed/part_001:83-96): renames each duplicate into the @duplicates
quarantine subtree at its original relative path. There is NO per-file
try/catch, so the first rename failure aborts the remaining iterations and
propagates. -/
def moveDuplicates (disk : Disk) : List FileRecord → Except String Disk
  | [] => .ok disk
  | f :: rest =>
    match renameSync disk f.path ("@duplicates/" ++ f.path) with
    | .error e => .error e
    | .ok disk' => moveDuplicates disk' rest

/-- Success payload of the keep-original handler
(src/unnamed/part_001:98-104); freedSpace is the byte total the response
formats. -/
structure KeepOriginalResponse where
  kept : String
  movedCount : Nat
  freedSpace : Nat
deriving DecidableEq, Repr

/-- Failure modes of the resolution handlers: the 400 "No duplicates found
for this hash" rejection, or a propagated filesystem error (500). -/
inductive ResolveError where
  | noDuplicates
  | ioError (msg : String)
deriving DecidableEq, Repr

deriving instance DecidableEq for Except

/-- The POST /api/duplicates/:hash/keep-original handler
(src/unnamed/part_001:60-109): looks the members up by hash, rejects groups
of fewer than 2, picks the original by the shortest-path reduce, moves all
other members into @duplicates, and answers with kept path, moved count and
freed bytes. The database is not touched: no record is deleted or updated
by this handler. -/
def keepOriginal (db : DB) (disk : Disk) (h : String) :
    Except ResolveError (KeepOriginalResponse × DB × Disk) :=
  match getFilesByHash db h with
  | [] => .error .noDuplicates
  | [_] => .error .noDuplicates
  | f1 :: f2 :: rest =>
    let original := reduceShortest f1 (f2 :: rest)
    let duplicateFiles := (f1 :: f2 :: rest).filter (fun f => f.path != original.path)
    let totalSizeFreed := (duplicateFiles.map (·.size)).sum
    match moveDuplicates disk duplicateFiles with
    | .error e => .error (.ioError e)
    | .ok disk' =>
      .ok ({ kept := original.path, movedCount := duplicateFiles.length,
             freedSpace := totalSizeFreed }, db, disk')

/-- The unlink loop of the delete handler
(src/lib/server/routes/duplicates.js:58-62): no per-file try/catch, the
first failure propagates. -/
def unlinkAll (disk : Disk) : List FileRecord → Except String Disk
  | [] => .ok disk
  | f :: rest =>
    match unlinkSync disk f.path with
    | .error e => .error e
    | .ok disk' => unlinkAll disk' rest

/-- The POST /api/duplicates/:hash/delete handler
(src/lib/server/routes/duplicates.js:50-69): rejects groups of fewer than
2 members, then unlinks every member file and answers with the deleted
count. As with keep-original, the database rows are left untouched. -/
def deleteDuplicates (db : DB) (disk : Disk) (h : String) :
    Except ResolveError (Nat × DB × Disk) :=
  match getFilesByHash db h with
  | [] => .error .noDuplicates
  | [_] => .error .noDuplicates
  | f1 :: f2 :: rest =>
    match unlinkAll disk (f1 :: f2 :: rest) with
    | .error e => .error (.ioError e)
    | .ok disk' => .ok ((f1 :: f2 :: rest).length, db, disk')

/-- The per-set move loop of autoRemoveDuplicates
(src/unnamed/part_005:81-100): each rename IS wrapped in its own try/catch,
so a failed move is logged and skipped and the loop continues; returns the
disk plus (files moved, space freed) counting only successes. -/
def autoMoveSet (disk : Disk) : List FileRecord → Disk × Nat × Nat
  | [] => (disk, 0, 0)
  | f :: rest =>
    match renameSync disk f.path ("@duplicates/" ++ f.path) with
    | .ok disk' =>
      match autoMoveSet disk' rest with
      | (d, c, s) => (d, c + 1, s + f.size)
    | .error _ => autoMoveSet disk rest

/-- Statistics returned by autoRemoveDuplicates (src/unnamed/part_005:103-108). -/
structure AutoRemoveResult where
  setsProcessed : Nat
  filesRemoved : Nat
  spaceFreed : Nat
deriving DecidableEq, Repr

/-- autoRemoveDuplicates (src/unnamed/part_005:38-117): for every duplicate
set, keeps the shortest-path member and moves the rest into @duplicates via
the failure-tolerant per-file loop, accumulating moved count and freed
space; the database rows are again untouched. -/
def autoRemoveDuplicates (db : DB) (disk : Disk) : AutoRemoveResult × Disk :=
  let duplicates := getDuplicates db
  let folded := duplicates.foldl
    (fun (acc : Disk × Nat × Nat) group =>
      match getFilesByHash db group.hash with
      | [] => acc
      | [_] => acc
      | f1 :: f2 :: rest =>
        let original := reduceShortest f1 (f2 :: rest)
        let duplicateFiles := (f1 :: f2 :: rest).filter (fun f => f.path != original.path)
        match autoMoveSet acc.1 duplicateFiles with
        | (d, c, s) => (d, acc.2.1 + c, acc.2.2 + s))
    (disk, 0, 0)
  ({ setsProcessed := duplicates.length, filesRemoved := folded.2.1,
     spaceFreed := folded.2.2 }, folded.1)

/-- The metadata table (src/database/meta.js:22-28): key TEXT PRIMARY KEY,
value TEXT; the updated_at timestamp is not modelled. -/
abbrev MetaTable := List (String × String)

/-- Prepared statement setMetadata (src/database/meta.js:35-38):
INSERT OR REPLACE INTO metadata (key, value): any row with the same key is
replaced. -/
def setMetadataRun (tbl : MetaTable) (key value : String) : MetaTable :=
  (tbl.filter (fun p => p.1 != key)) ++ [(key, value)]

/-- Prepared statement getMetadata (src/database/meta.js:41-45):
SELECT value FROM metadata WHERE key = ?. -/
def getMetadataGet (tbl : MetaTable) (key : String) : Option String :=
  (tbl.find? (fun p => p.1 == key)).map (·.2)

/-- setMeta (src/database/meta.js:58-63): stores JSON.stringify(value)
under key. The value type and JSON.stringify are abstract (α, encode). -/
def setMeta {α : Type} (encode : α → String) (tbl : MetaTable) (key : String)
    (v : α) : MetaTable :=
  setMetadataRun tbl key (encode v)

/-- getMeta (src/database/meta.js:75-78): returns JSON.parse of the stored
value, or null (none) when the key has no row. JSON.parse is the abstract
decode. -/
def getMeta {α : Type} (decode : String → α) (tbl : MetaTable) (key : String) :
    Option α :=
  match getMetadataGet tbl key with
  | some s => some (decode s)
  | none => none

/-! Helper lemmas about the byte-order comparison and the metadata store. -/

theorem charListLe_refl : ∀ as, charListLe as as = true := by
  intro as
  induction as with
  | nil => rfl
  | cons a t ih =>
    unfold charListLe
    rw [if_neg (Nat.lt_irrefl _), if_neg (Nat.lt_irrefl _)]
    exact ih

theorem charListLe_total : ∀ as bs, charListLe as bs = true ∨ charListLe bs as = true := by
  intro as
  induction as with
  | nil => intro bs; left; rfl
  | cons a t ih =>
    intro bs
    cases bs with
    | nil => right; rfl
    | cons b u =>
      rcases Nat.lt_trichotomy a.toNat b.toNat with hlt | heq | hgt
      · left; simp [charListLe, hlt]
      · rcases ih u with h | h
        · left; simp [charListLe, heq, Nat.lt_irrefl, h]
        · right; simp [charListLe, heq, Nat.lt_irrefl, h]
      · right; simp [charListLe, hgt]

theorem charListLe_trans :
    ∀ as bs cs, charListLe as bs = true → charListLe bs cs = true →
      charListLe as cs = true := by
  intro as
  induction as with
  | nil => intro bs cs _ _; rfl
  | cons a t ih =>
    intro bs cs h1 h2
    cases bs with
    | nil => simp [charListLe] at h1
    | cons b u =>
      cases cs with
      | nil => simp [charListLe] at h2
      | cons c v =>
        rcases Nat.lt_trichotomy a.toNat b.toNat with hab | hab | hab
        · rcases Nat.lt_trichotomy b.toNat c.toNat with hbc | hbc | hbc
          · simp [charListLe, Nat.lt_trans hab hbc]
          · simp [charListLe, hbc ▸ hab]
          · simp [charListLe, hbc, Nat.lt_asymm hbc, Nat.lt_irrefl] at h2
        · rcases Nat.lt_trichotomy b.toNat c.toNat with hbc | hbc | hbc
          · simp [charListLe, hab ▸ hbc]
          · simp only [charListLe] at h1 h2 ⊢
            rw [hab] at h1
            rw [hbc] at h2
            rw [hab, hbc]
            rw [if_neg (Nat.lt_irrefl _), if_neg (Nat.lt_irrefl _)] at h1 h2 ⊢
            exact ih u v h1 h2
          · simp [charListLe, hbc, Nat.lt_asymm hbc, Nat.lt_irrefl] at h2
        · simp [charListLe, hab, Nat.lt_asymm hab, Nat.lt_irrefl] at h1

theorem strLe_trans {a b c : String} (h1 : strLe a b = true) (h2 : strLe b c = true) :
    strLe a c = true :=
  charListLe_trans a.data b.data c.data h1 h2

instance : IsTotal FileRecord pathLe :=
  ⟨fun a b => charListLe_total a.path.data b.path.data⟩

instance : IsTrans FileRecord pathLe :=
  ⟨fun _ _ _ h1 h2 => strLe_trans h1 h2⟩

instance : IsTotal DupGroup groupLe :=
  ⟨fun a b => charListLe_total a.path.data b.path.data⟩

instance : IsTrans DupGroup groupLe :=
  ⟨fun _ _ _ h1 h2 => strLe_trans h1 h2⟩

theorem getMetadataGet_setMetadataRun (tbl : MetaTable) (key value : String) :
    getMetadataGet (setMetadataRun tbl key value) key = some value := by
  induction tbl with
  | nil => simp [getMetadataGet, setMetadataRun, List.find?]
  | cons p ps ih =>
    by_cases hp : p.1 = key
    · simpa [setMetadataRun, hp] using ih
    · simp only [setMetadataRun, List.filter_cons] at ih ⊢
      have hbne : (p.1 != key) = true := by simp [bne, hp]
      rw [hbne]
      simp only [if_true]
      simp only [getMetadataGet, List.find?] at ih ⊢
      have hbeq : (p.1 == key) = false := by simp [hp]
      rw [hbeq]
      exact ih

/-! Concrete codecs used to instantiate the abstract JSON encode/decode in
witnesses: a unary encoding of naturals, trivially invertible. -/

def enc0 : Nat → String := fun n => ⟨List.replicate n 'x'⟩

def dec0 : String → Nat := fun s => s.data.length

/-- C8 (corrected): PathIdentity is a pure TOTAL function: it has no failure
condition at all, and in particular on the empty path string it returns a
normal result (id = hash of "/", empty filename, empty directory) rather
than an error; on every input the id is the path hash of
directory ++ "/" ++ filename. -/
theorem C8_parseFilePath_total (ph : String → String) (p : String) :
    (parseFilePath ph p).id =
      ph ((parseFilePath ph p).directory ++ "/" ++ (parseFilePath ph p).fullname) ∧
    parseFilePath ph "" = { id := ph "/", fullname := "", directory := "" } := by
  constructor
  · rfl
  · rfl

/-- C8 counterexample: evaluating parseFilePath on the empty path yields a
well-formed result rather than an error, contradicting the claim that the
empty path is rejected. With the identity path hash, the id is "/" (the
hash of directory ++ "/" ++ filename with both components empty). -/
theorem C8_counterexample :
    parseFilePath (fun s => s) "" = { id := "/", fullname := "", directory := "" } := by
  decide

/-- C9 (confirmed): for every key and every value that round-trips through
the JSON codec, reading scan metadata after writing returns the originally
written value; a second write to the same key replaces the first; reading a
key that was never written returns null (none). -/
theorem C9_meta_roundtrip {α : Type} (encode : α → String) (decode : String → α)
    (tbl : MetaTable) (key : String) (v1 v2 : α)
    (h1 : decode (encode v1) = v1) (h2 : decode (encode v2) = v2) :
    getMeta decode (setMeta encode tbl key v1) key = some v1 ∧
    getMeta decode (setMeta encode (setMeta encode tbl key v1) key v2) key = some v2 ∧
    ∀ k, (∀ q ∈ tbl, q.1 ≠ k) → getMeta decode tbl k = none := by
  refine ⟨?_, ?_, ?_⟩
  · simp [getMeta, setMeta, getMetadataGet_setMetadataRun, h1]
  · simp [getMeta, setMeta, getMetadataGet_setMetadataRun, h2]
  · intro k hk
    have hfind : List.find? (fun q => q.1 == k) tbl = none := by
      rw [List.find?_eq_none]
      intro q hq
      simp [hk q hq]
    simp [getMeta, getMetadataGet, hfind]

/-- C9 witness: the round-trip theorem applied to the unary codec at the
scan_start_time key with the values 3 and 7 over the empty table. -/
theorem C9_meta_roundtrip_witness :
    getMeta dec0 (setMeta enc0 [] "scan_start_time" 3) "scan_start_time" = some 3 ∧
    getMeta dec0 (setMeta enc0 (setMeta enc0 [] "scan_start_time" 3) "scan_start_time" 7)
      "scan_start_time" = some 7 ∧
    ∀ k, (∀ q ∈ ([] : MetaTable), q.1 ≠ k) → getMeta dec0 [] k = none :=
  C9_meta_roundtrip enc0 dec0 [] "scan_start_time" 3 7 (by decide) (by decide)

/-- C5 (confirmed): both resolution handlers reject with the
no-duplicates error exactly when the by-hash lookup returns fewer than 2
member rows; with at least 2 members the request is never rejected for
this reason (it either succeeds or fails with a filesystem ioError). -/
theorem C5_noDuplicates_iff (db : DB) (disk : Disk) (h : String) :
    (keepOriginal db disk h = .error .noDuplicates ↔ (getFilesByHash db h).length < 2) ∧
    (deleteDuplicates db disk h = .error .noDuplicates ↔ (getFilesByHash db h).length < 2) := by
  constructor
  · cases hf : getFilesByHash db h with
    | nil => simp [keepOriginal, hf]
    | cons f1 tl =>
      cases tl with
      | nil => simp [keepOriginal, hf]
      | cons f2 rest =>
        simp only [keepOriginal, hf]
        cases hm : moveDuplicates disk
            ((f1 :: f2 :: rest).filter
              (fun f => f.path != (reduceShortest f1 (f2 :: rest)).path)) with
        | error e => simp [hm, List.length_cons]
        | ok d => simp [hm, List.length_cons]
  · cases hf : getFilesByHash db h with
    | nil => simp [deleteDuplicates, hf]
    | cons f1 tl =>
      cases tl with
      | nil => simp [deleteDuplicates, hf]
      | cons f2 rest =>
        simp only [deleteDuplicates, hf]
        cases hm : unlinkAll disk (f1 :: f2 :: rest) with
        | error e => simp [hm, List.length_cons]
        | ok d => simp [hm, List.length_cons]

/-- C1 (corrected): a successful resolution operation does NOT remove the
resolved files' records from the record store: both the keep-original
handler and the delete handler return the files table unchanged, so after
keep-original on a group of N members all N records with that digest are
still in the store (they are purged only by the next scan's
reconciliation pass). -/
theorem C1_resolution_preserves_store (db : DB) (disk : Disk) (h : String) :
    (∀ out, keepOriginal db disk h = .ok out → out.2.1 = db) ∧
    (∀ out, deleteDuplicates db disk h = .ok out → out.2.1 = db) := by
  constructor
  · intro out hout
    cases hf : getFilesByHash db h with
    | nil => simp [keepOriginal, hf] at hout
    | cons f1 tl =>
      cases tl with
      | nil => simp [keepOriginal, hf] at hout
      | cons f2 rest =>
        simp only [keepOriginal, hf] at hout
        cases hm : moveDuplicates disk
            ((f1 :: f2 :: rest).filter
              (fun f => f.path != (reduceShortest f1 (f2 :: rest)).path)) with
        | error e => rw [hm] at hout; simp at hout
        | ok d =>
          rw [hm] at hout
          simp only [Except.ok.injEq] at hout
          rw [← hout]

  · intro out hout
    cases hf : getFilesByHash db h with
    | nil => simp [deleteDuplicates, hf] at hout
    | cons f1 tl =>
      cases tl with
      | nil => simp [deleteDuplicates, hf] at hout
      | cons f2 rest =>
        simp only [deleteDuplicates, hf] at hout
        cases hm : unlinkAll disk (f1 :: f2 :: rest) with
        | error e => rw [hm] at hout; simp at hout
        | ok d =>
          rw [hm] at hout
          simp only [Except.ok.injEq] at hout
          rw [← hout]

/-- C1 counterexample: keep-original on a 2-member group succeeds (both
files on disk, no per-file failure), yet the returned record store still
holds BOTH records with digest h — not exactly one — because the handler
never deletes rows. -/
theorem C1_counterexample :
    keepOriginal
        [⟨"1", "t/a", "h", 5⟩, ⟨"2", "t/b", "h", 5⟩] ["t/a", "t/b"] "h" =
      .ok ({ kept := "t/a", movedCount := 1, freedSpace := 5 },
           [⟨"1", "t/a", "h", 5⟩, ⟨"2", "t/b", "h", 5⟩],
           ["@duplicates/t/b", "t/a"]) ∧
    (([⟨"1", "t/a", "h", 5⟩, ⟨"2", "t/b", "h", 5⟩] : DB).filter
        (fun r => r.hash == "h")).length = 2 := by
  decide

/-- C1 witness: the preservation theorem applied to the concrete 2-member
group of the counterexample scenario. -/
theorem C1_resolution_preserves_store_witness :
    (({ kept := "t/a", movedCount := 1, freedSpace := 5 },
      ([⟨"1", "t/a", "h", 5⟩, ⟨"2", "t/b", "h", 5⟩] : DB),
      (["@duplicates/t/b", "t/a"] : Disk)) :
        KeepOriginalResponse × DB × Disk).2.1 =
      [⟨"1", "t/a", "h", 5⟩, ⟨"2", "t/b", "h", 5⟩] :=
  (C1_resolution_preserves_store
      [⟨"1", "t/a", "h", 5⟩, ⟨"2", "t/b", "h", 5⟩] ["t/a", "t/b"] "h").1
    ({ kept := "t/a", movedCount := 1, freedSpace := 5 },
     [⟨"1", "t/a", "h", 5⟩, ⟨"2", "t/b", "h", 5⟩],
     ["@duplicates/t/b", "t/a"])
    (by decide)

/-- C3 counterexample: keep-original over a 3-member group where the second
member's file has vanished from disk: the handler does not skip just that
file — the rename throws, the third member is never processed, and the
whole operation answers with a single error instead of per-file
success/failure counts. -/
theorem C3_counterexample :
    keepOriginal
        [⟨"1", "t/a", "h", 5⟩, ⟨"2", "t/b", "h", 6⟩, ⟨"3", "t/c", "h", 7⟩]
        ["t/a", "t/c"] "h" =
      .error (.ioError "ENOENT") := by
  decide

/-- C3 (corrected): in the HTTP keep-original handler a failed move aborts
the loop — moveDuplicates propagates the error of the first failed rename,
so the remaining members are not processed and no per-file counts are
reported. Only the CLI auto-remove path is per-file tolerant: its loop
skips the failed file (leaving the disk unchanged at that step), still
processes the remaining members, and tallies only successes. -/
theorem C3_move_failure_tolerance (disk : Disk) (f : FileRecord)
    (rest : List FileRecord) (hmiss : f.path ∉ disk) :
    autoMoveSet disk (f :: rest) = autoMoveSet disk rest ∧
    moveDuplicates disk (f :: rest) = .error "ENOENT" := by
  constructor
  · simp [autoMoveSet, renameSync, hmiss]
  · simp [moveDuplicates, renameSync, hmiss]

/-- C3 witness: the tolerance theorem applied to the counterexample group,
whose second member t/b is missing from disk. -/
theorem C3_move_failure_tolerance_witness :
    autoMoveSet ["t/a", "t/c"] [⟨"2", "t/b", "h", 6⟩, ⟨"3", "t/c", "h", 7⟩] =
      autoMoveSet ["t/a", "t/c"] [⟨"3", "t/c", "h", 7⟩] ∧
    moveDuplicates ["t/a", "t/c"] [⟨"2", "t/b", "h", 6⟩, ⟨"3", "t/c", "h", 7⟩] =
      .error "ENOENT" :=
  C3_move_failure_tolerance ["t/a", "t/c"] ⟨"2", "t/b", "h", 6⟩
    [⟨"3", "t/c", "h", 7⟩] (by decide)

/-! Lemmas about the record store and the traversal, used for the scanner
claims. -/

theorem getFileById_append_left (db ext : DB) (i : String)
    (h : (getFileById db i).isSome = true) :
    getFileById (db ++ ext) i = getFileById db i := by
  unfold getFileById at h ⊢
  rw [List.find?_append]
  cases hf : List.find? (fun r => r.id == i) db with
  | none => rw [hf] at h; simp at h
  | some r => rfl

theorem getFileById_append_singleton (db : DB) (r : FileRecord)
    (h : getFileById db r.id = none) :
    getFileById (db ++ [r]) r.id = some r := by
  unfold getFileById at h ⊢
  rw [List.find?_append, h]
  simp [List.find?]

mutual
theorem filesOfEntry_paths : ∀ (e : FSEntry) (rel : String) (pd : String × FileData),
    pd ∈ filesOfEntry rel e → pd.1 ∈ pathsOfEntry rel e
  | .file name d => by
    intro rel pd hpd
    simp only [filesOfEntry, List.mem_singleton] at hpd
    simp [pathsOfEntry, hpd]
  | .dir name es => by
    intro rel pd hpd
    simp only [filesOfEntry] at hpd
    simp only [pathsOfEntry, List.mem_cons]
    exact Or.inr (filesOfList_paths es (rel ++ "/" ++ name) pd hpd)
theorem filesOfList_paths : ∀ (l : FSList) (rel : String) (pd : String × FileData),
    pd ∈ filesOfList rel l → pd.1 ∈ pathsOfList rel l
  | .nil => by intro rel pd hpd; simp [filesOfList] at hpd
  | .cons e rest => by
    intro rel pd hpd
    simp only [filesOfList, List.mem_append] at hpd
    simp only [pathsOfList, List.mem_append]
    rcases hpd with h | h
    · exact Or.inl (filesOfEntry_paths e rel pd h)
    · exact Or.inr (filesOfList_paths rest rel pd h)
end

mutual
theorem processEntry_spec :
    ∀ (e : FSEntry) (ph ch : String → String) (db : DB) (rel : String)
      (db' : DB) (a s : Nat), processEntry ph ch db rel e = .ok (db', a, s) →
      (∃ ext, db' = db ++ ext) ∧
      (∀ r ∈ db', r ∈ db ∨ r.path ∈ (filesOfEntry rel e).map Prod.fst) ∧
      (∀ pd ∈ filesOfEntry rel e,
        (getFileById db' (parseFilePath ph pd.1).id).isSome = true)
  | .file name d => by
    intro ph ch db rel db' a s h
    simp only [processEntry] at h
    cases hg : getFileById db (parseFilePath ph (rel ++ "/" ++ name)).id with
    | some r0 =>
      rw [hg] at h
      simp only [Except.ok.injEq, Prod.mk.injEq] at h
      obtain ⟨hdb, -⟩ := h
      subst hdb
      refine ⟨⟨[], by simp⟩, fun r hr => Or.inl hr, ?_⟩
      intro pd hpd
      simp only [filesOfEntry, List.mem_singleton] at hpd
      subst hpd
      show (getFileById db (parseFilePath ph (rel ++ "/" ++ name)).id).isSome = true
      rw [hg]
      rfl
    | none =>
      rw [hg] at h
      cases hh : hashFile ch d with
      | error e' => rw [hh] at h; exact absurd h (by simp)
      | ok fh =>
        rw [hh] at h
        simp only [insertFile, hg, Option.isSome_none, Bool.false_eq_true,
          if_false, Except.ok.injEq, Prod.mk.injEq] at h
        obtain ⟨hdb, -⟩ := h
        subst hdb
        refine ⟨⟨_, rfl⟩, ?_, ?_⟩
        · intro r hr
          rcases List.mem_append.1 hr with h' | h'
          · exact Or.inl h'
          · right
            simp only [List.mem_singleton] at h'
            subst h'
            simp [filesOfEntry]
        · intro pd hpd
          simp only [filesOfEntry, List.mem_singleton] at hpd
          subst hpd
          show (getFileById (db ++ [_]) (parseFilePath ph (rel ++ "/" ++ name)).id).isSome = true
          rw [getFileById_append_singleton db _ hg]
          rfl
  | .dir name es => by
    intro ph ch db rel db' a s h
    simp only [processEntry] at h
    exact processDirectory_spec es ph ch db (rel ++ "/" ++ name) db' a s h
theorem processDirectory_spec :
    ∀ (l : FSList) (ph ch : String → String) (db : DB) (rel : String)
      (db' : DB) (a s : Nat), processDirectory ph ch db rel l = .ok (db', a, s) →
      (∃ ext, db' = db ++ ext) ∧
      (∀ r ∈ db', r ∈ db ∨ r.path ∈ (filesOfList rel l).map Prod.fst) ∧
      (∀ pd ∈ filesOfList rel l,
        (getFileById db' (parseFilePath ph pd.1).id).isSome = true)
  | .nil => by
    intro ph ch db rel db' a s h
    simp only [processDirectory, Except.ok.injEq, Prod.mk.injEq] at h
    obtain ⟨hdb, -⟩ := h
    subst hdb
    exact ⟨⟨[], by simp⟩, fun r hr => Or.inl hr, by intro pd hpd; simp [filesOfList] at hpd⟩
  | .cons e rest => by
    intro ph ch db rel db' a s h
    simp only [processDirectory] at h
    split at h
    · exact absurd h (by simp)
    · rename_i db1 a1 s1 he
      split at h
      · exact absurd h (by simp)
      · rename_i db2 a2 s2 hr
        simp only [Except.ok.injEq, Prod.mk.injEq] at h
        obtain ⟨hdb, -⟩ := h
        subst hdb
        obtain ⟨⟨ext1, hext1⟩, hmem1, hids1⟩ := processEntry_spec e ph ch db rel db1 a1 s1 he
        obtain ⟨⟨ext2, hext2⟩, hmem2, hids2⟩ := processDirectory_spec rest ph ch db1 rel db2 a2 s2 hr
        refine ⟨⟨ext1 ++ ext2, by rw [hext2, hext1, List.append_assoc]⟩, ?_, ?_⟩
        · intro r hr'
          rcases hmem2 r hr' with h' | h'
          · rcases hmem1 r h' with h'' | h''
            · exact Or.inl h''
            · right
              simp only [filesOfList, List.map_append, List.mem_append]
              exact Or.inl h''
          · right
            simp only [filesOfList, List.map_append, List.mem_append]
            exact Or.inr h'
        · intro pd hpd
          simp only [filesOfList, List.mem_append] at hpd
          rcases hpd with h' | h'
          · have := hids1 pd h'
            rw [hext2, getFileById_append_left db1 ext2 _ this]
            exact this
          · exact hids2 pd h'
end

mutual
theorem processEntry_skip :
    ∀ (e : FSEntry) (ph ch : String → String) (db : DB) (rel : String),
      (∀ pd ∈ filesOfEntry rel e,
        (getFileById db (parseFilePath ph pd.1).id).isSome = true) →
      processEntry ph ch db rel e = .ok (db, 0, 0)
  | .file name d => by
    intro ph ch db rel hids
    have hid := hids (rel ++ "/" ++ name, d) (by simp [filesOfEntry])
    simp only [processEntry]
    cases hg : getFileById db (parseFilePath ph (rel ++ "/" ++ name)).id with
    | some r0 => rfl
    | none => rw [hg] at hid; simp at hid
  | .dir name es => by
    intro ph ch db rel hids
    simp only [processEntry]
    exact processDirectory_skip es ph ch db (rel ++ "/" ++ name) hids
theorem processDirectory_skip :
    ∀ (l : FSList) (ph ch : String → String) (db : DB) (rel : String),
      (∀ pd ∈ filesOfList rel l,
        (getFileById db (parseFilePath ph pd.1).id).isSome = true) →
      processDirectory ph ch db rel l = .ok (db, 0, 0)
  | .nil => by intro ph ch db rel _; rfl
  | .cons e rest => by
    intro ph ch db rel hids
    have h1 := processEntry_skip e ph ch db rel
      (fun pd hpd => hids pd (by simp [filesOfList, hpd]))
    have h2 := processDirectory_skip rest ph ch db rel
      (fun pd hpd => hids pd (by simp [filesOfList, hpd]))
    simp [processDirectory, h1, h2]
end

mutual
theorem processEntry_ok_of_readable :
    ∀ (e : FSEntry) (ph ch : String → String) (db : DB) (rel : String),
      (∀ pd ∈ filesOfEntry rel e, pd.2.readable = true) →
      ∃ out, processEntry ph ch db rel e = .ok out
  | .file name d => by
    intro ph ch db rel hread
    have hr : d.readable = true := hread (rel ++ "/" ++ name, d) (by simp [filesOfEntry])
    simp only [processEntry]
    cases hg : getFileById db (parseFilePath ph (rel ++ "/" ++ name)).id with
    | some r0 => exact ⟨(db, 0, 0), rfl⟩
    | none =>
      refine ⟨(db ++ [{ id := (parseFilePath ph (rel ++ "/" ++ name)).id,
                        path := rel ++ "/" ++ name, hash := ch d.content,
                        size := getFileSize d }], 1, getFileSize d), ?_⟩
      simp only [hashFile, hr, if_true, insertFile, hg, Option.isSome_none,
        Bool.false_eq_true, if_false]
  | .dir name es => by
    intro ph ch db rel hread
    simp only [processEntry]
    exact processDirectory_ok_of_readable es ph ch db (rel ++ "/" ++ name) hread
theorem processDirectory_ok_of_readable :
    ∀ (l : FSList) (ph ch : String → String) (db : DB) (rel : String),
      (∀ pd ∈ filesOfList rel l, pd.2.readable = true) →
      ∃ out, processDirectory ph ch db rel l = .ok out
  | .nil => by intro ph ch db rel _; exact ⟨(db, 0, 0), rfl⟩
  | .cons e rest => by
    intro ph ch db rel hread
    obtain ⟨⟨db1, a1, s1⟩, h1⟩ := processEntry_ok_of_readable e ph ch db rel
      (fun pd hpd => hread pd (by simp [filesOfList, hpd]))
    obtain ⟨⟨db2, a2, s2⟩, h2⟩ := processDirectory_ok_of_readable rest ph ch db1 rel
      (fun pd hpd => hread pd (by simp [filesOfList, hpd]))
    exact ⟨(db2, a1 + a2, s1 + s2), by simp [processDirectory, h1, h2]⟩
end

theorem cleanupMissingFiles_noop (onDisk : String → Bool) (db : DB)
    (h : ∀ r ∈ db, onDisk r.path = true) :
    cleanupMissingFiles onDisk db = (db, 0, 0) := by
  have h1 : db.filter (fun r => onDisk r.path) = db :=
    List.filter_eq_self.2 (fun a ha => h a ha)
  have h2 : db.filter (fun r => !onDisk r.path) = [] :=
    List.filter_eq_nil_iff.2 (fun a ha => by simp [h a ha])
  simp [cleanupMissingFiles, h1, h2]

/-- C6 (confirmed): scanning is idempotent — after a successful fresh scan
of a tree, scanning the unchanged tree again over the resulting database
performs zero new-file insertions (every file is found by id and skipped),
zero removed-file purges (every stored path still exists on disk), and
leaves the stored record set identical. -/
theorem C6_scan_idempotent (ph ch : String → String) (targetName : String)
    (entries : FSList) (r1 : ScanResult)
    (h1 : scanDirectory ph ch false targetName entries [] = .ok r1) :
    scanDirectory ph ch true targetName entries r1.db =
      .ok { db := r1.db, newFilesAdded := 0, newFilesSize := 0,
            removedCount := 0, removedSize := 0 } := by
  simp only [scanDirectory, Bool.false_eq_true, if_false] at h1
  split at h1
  · exact absurd h1 (by simp)
  · rename_i db1 a1 s1 hp
    simp only [Except.ok.injEq] at h1
    subst h1
    obtain ⟨-, hmem, hids⟩ := processDirectory_spec entries ph ch [] targetName db1 a1 s1 hp
    have hall : ∀ r ∈ db1, existsSync targetName entries r.path = true := by
      intro r hrr
      rcases hmem r hrr with hfalse | hpath
      · simp at hfalse
      · obtain ⟨pd, hpd, hpeq⟩ := List.mem_map.1 hpath
        have hmem' := filesOfList_paths entries targetName pd hpd
        rw [← hpeq]
        simp only [existsSync, treePaths, decide_eq_true_eq, List.mem_cons]
        exact Or.inr hmem'
    simp only [scanDirectory, if_true,
      cleanupMissingFiles_noop (existsSync targetName entries) db1 hall,
      processDirectory_skip entries ph ch db1 targetName hids]

/-- Concrete two-file tree (one file inside a subdirectory, one at top
level, identical content) used to witness the scanner theorems. -/
def sampleEntries : FSList :=
  .cons (.dir "a" (.cons (.file "x.txt" ⟨"hello", some 100, true⟩) .nil))
    (.cons (.file "y.txt" ⟨"hello", some 100, true⟩) .nil)

/-- The record store produced by a fresh scan of sampleEntries with the
identity hash functions. -/
def sampleDb : DB :=
  [⟨"t/a/x.txt", "t/a/x.txt", "hello", 100⟩,
   ⟨"t/y.txt", "t/y.txt", "hello", 100⟩]

/-- C6 witness: the idempotence theorem applied to the concrete sample
tree, whose fresh scan inserts 2 files of total size 200. -/
theorem C6_scan_idempotent_witness :
    scanDirectory (fun s => s) (fun s => s) true "t" sampleEntries sampleDb =
      .ok { db := sampleDb, newFilesAdded := 0, newFilesSize := 0,
            removedCount := 0, removedSize := 0 } :=
  C6_scan_idempotent (fun s => s) (fun s => s) "t" sampleEntries
    { db := sampleDb, newFilesAdded := 2, newFilesSize := 200,
      removedCount := 0, removedSize := 0 }
    (by decide)

/-- C2 (corrected): during a scan, record-insertion failures are confined
to the single file (the insert sits in a try/catch, so a traversal over
readable files always completes successfully — no insert error aborts the
loop), but a content-hash failure is NOT caught at the file boundary: an
unreadable new file makes processEntry itself return the stream error,
which processDirectory propagates, aborting the surrounding traversal. -/
theorem C2_error_propagation (ph ch : String → String) :
    (∀ (db : DB) (rel : String) (l : FSList),
        (∀ pd ∈ filesOfList rel l, pd.2.readable = true) →
        ∃ out, processDirectory ph ch db rel l = .ok out) ∧
    (∀ (db : DB) (rel name : String) (d : FileData), d.readable = false →
        getFileById db (parseFilePath ph (rel ++ "/" ++ name)).id = none →
        processEntry ph ch db rel (.file name d) = .error "EIO") := by
  constructor
  · intro db rel l hread
    exact processDirectory_ok_of_readable l ph ch db rel hread
  · intro db rel name d hd hg
    simp [processEntry, hg, hashFile, hd]

/-- C2 counterexample: a two-file listing whose first file is unreadable:
the scan does not skip the bad file and continue — the whole traversal
aborts with the stream error and the second (readable) file is never
reached, contradicting the claim that hash failures are skipped per file. -/
theorem C2_counterexample :
    processDirectory (fun s => s) (fun s => s) [] "t"
      (.cons (.file "bad" ⟨"x", some 1, false⟩)
        (.cons (.file "good" ⟨"x", some 1, true⟩) .nil)) =
      .error "EIO" := by
  decide

/-- C2 witness: the propagation theorem applied to the sample tree (all
files readable) and to a concrete unreadable file over the empty store. -/
theorem C2_error_propagation_witness :
    (∃ out, processDirectory (fun s => s) (fun s => s) [] "t" sampleEntries = .ok out) ∧
    processEntry (fun s => s) (fun s => s) [] "t"
      (.file "bad" ⟨"x", some 1, false⟩) = .error "EIO" :=
  ⟨(C2_error_propagation (fun s => s) (fun s => s)).1 [] "t" sampleEntries (by decide),
   (C2_error_propagation (fun s => s) (fun s => s)).2 [] "t" "bad"
     ⟨"x", some 1, false⟩ (by decide) (by decide)⟩

/-- C10 (confirmed): the size lookup used during scanning never raises —
when the stat for the byte length fails, getFileSize returns 0, and a new
readable file whose stat failed is still hashed and inserted into the
index with size recorded as 0 (counted as one new file of size 0), rather
than the scan failing or the file being skipped. -/
theorem C10_stat_failure_size_zero (ph ch : String → String) (db : DB)
    (rel name : String) (d : FileData) (hstat : d.sizeStat = none)
    (hread : d.readable = true)
    (hnew : getFileById db (parseFilePath ph (rel ++ "/" ++ name)).id = none) :
    getFileSize d = 0 ∧
    processEntry ph ch db rel (.file name d) =
      .ok (db ++ [{ id := (parseFilePath ph (rel ++ "/" ++ name)).id,
                    path := rel ++ "/" ++ name, hash := ch d.content,
                    size := 0 }], 1, 0) := by
  have hz : getFileSize d = 0 := by simp [getFileSize, hstat]
  refine ⟨hz, ?_⟩
  simp [processEntry, hnew, hashFile, hread, insertFile, hz]

/-- C10 witness: the theorem applied to a concrete readable file whose
stat fails, over the empty store. -/
theorem C10_stat_failure_size_zero_witness :
    getFileSize ⟨"c", none, true⟩ = 0 ∧
    processEntry (fun s => s) (fun s => s) [] "t" (.file "f" ⟨"c", none, true⟩) =
      .ok ([⟨"t/f", "t/f", "c", 0⟩], 1, 0) :=
  C10_stat_failure_size_zero (fun s => s) (fun s => s) [] "t" "f"
    ⟨"c", none, true⟩ (by decide) (by decide) (by decide)

theorem reduceShortest_nil (f : FileRecord) : reduceShortest f [] = f := rfl

theorem reduceShortest_cons (f c : FileRecord) (rest : List FileRecord) :
    reduceShortest f (c :: rest) =
      reduceShortest (if c.path.length < f.path.length then c else f) rest := rfl

theorem reduceShortest_spec :
    ∀ (rest : List FileRecord) (f : FileRecord),
      List.Pairwise pathLe (f :: rest) →
      reduceShortest f rest ∈ f :: rest ∧
      (∀ g ∈ f :: rest, (reduceShortest f rest).path.length ≤ g.path.length) ∧
      (∀ g ∈ f :: rest, g.path.length = (reduceShortest f rest).path.length →
        strLe (reduceShortest f rest).path g.path = true) := by
  intro rest
  induction rest with
  | nil =>
    intro f _
    rw [reduceShortest_nil]
    refine ⟨List.mem_singleton_self f, ?_, ?_⟩
    · intro g hg
      rw [List.mem_singleton] at hg
      subst hg
      exact Nat.le_refl _
    · intro g hg _
      rw [List.mem_singleton] at hg
      subst hg
      exact charListLe_refl _
  | cons c rest' ih =>
    intro f hsort
    rw [List.pairwise_cons] at hsort
    obtain ⟨hf_all, hsort'⟩ := hsort
    have hsort'' := (List.pairwise_cons.1 hsort').2
    have hc_all := (List.pairwise_cons.1 hsort').1
    rw [reduceShortest_cons]
    by_cases hlt : c.path.length < f.path.length
    · rw [if_pos hlt]
      obtain ⟨hmem, hlen, hlex⟩ := ih c hsort'
      refine ⟨List.mem_cons_of_mem f hmem, ?_, ?_⟩
      · intro g hg
        rcases List.mem_cons.1 hg with hgf | hgrest
        · subst hgf
          exact Nat.le_trans (hlen c (List.mem_cons_self c rest')) (Nat.le_of_lt hlt)
        · exact hlen g hgrest
      · intro g hg hglen
        rcases List.mem_cons.1 hg with hgf | hgrest
        · subst hgf
          have h1 := hlen c (List.mem_cons_self c rest')
          omega
        · exact hlex g hgrest hglen
    · rw [if_neg hlt]
      have hf_rest' : ∀ b ∈ rest', pathLe f b :=
        fun b hb => hf_all b (List.mem_cons_of_mem c hb)
      obtain ⟨hmem, hlen, hlex⟩ := ih f (List.pairwise_cons.2 ⟨hf_rest', hsort''⟩)
      refine ⟨?_, ?_, ?_⟩
      · rcases List.mem_cons.1 hmem with h | h
        · rw [h]
          exact List.mem_cons_self _ _
        · exact List.mem_cons_of_mem f (List.mem_cons_of_mem c h)
      · intro g hg
        rcases List.mem_cons.1 hg with hgf | hg2
        · subst hgf
          exact hlen g (List.mem_cons_self g rest')
        · rcases List.mem_cons.1 hg2 with hgc | hgrest
          · subst hgc
            exact Nat.le_trans (hlen f (List.mem_cons_self f rest')) (Nat.le_of_not_lt hlt)
          · exact hlen g (List.mem_cons_of_mem f hgrest)
      · intro g hg hglen
        rcases List.mem_cons.1 hg with hgf | hg2
        · subst hgf
          exact hlex g (List.mem_cons_self g rest') hglen
        · rcases List.mem_cons.1 hg2 with hgc | hgrest
          · subst hgc
            have h1 := hlen f (List.mem_cons_self f rest')
            have h2 : f.path.length ≤ g.path.length := Nat.le_of_not_lt hlt
            have hfr : f.path.length = (reduceShortest f rest').path.length := by omega
            have hsf := hlex f (List.mem_cons_self f rest') hfr
            exact strLe_trans hsf (hf_all g (List.mem_cons_self g rest'))
          · exact hlex g (List.mem_cons_of_mem f hgrest) hglen

/-- The three-file scenario of the spec: a/x.txt, b/x.txt and
c/longname/x.txt with identical content (digest d) and size 100. -/
def scenarioDb : DB :=
  [⟨"1", "a/x.txt", "d", 100⟩, ⟨"2", "b/x.txt", "d", 100⟩,
   ⟨"3", "c/longname/x.txt", "d", 100⟩]

/-- The on-disk state of the scenario: all three files present. -/
def scenarioDisk : Disk := ["a/x.txt", "b/x.txt", "c/longname/x.txt"]

/-- C4 (confirmed): keep-original selects as canonical the member with the
shortest path string; among members tying for shortest length it selects
the first in lexicographic (byte) order — the reduce over the ORDER BY
path result keeps the earliest minimum. In the three-file scenario it
keeps a/x.txt, moves the other two, and reports movedCount 2 and
freedSpace 200 bytes. -/
theorem C4_keep_original_selection :
    (∀ (db : DB) (h : String) (f : FileRecord) (rest : List FileRecord),
        getFilesByHash db h = f :: rest →
        reduceShortest f rest ∈ f :: rest ∧
        (∀ g ∈ f :: rest, (reduceShortest f rest).path.length ≤ g.path.length) ∧
        (∀ g ∈ f :: rest, g.path.length = (reduceShortest f rest).path.length →
          strLe (reduceShortest f rest).path g.path = true)) ∧
    keepOriginal scenarioDb scenarioDisk "d" =
      .ok ({ kept := "a/x.txt", movedCount := 2, freedSpace := 200 },
           scenarioDb,
           ["@duplicates/c/longname/x.txt", "@duplicates/b/x.txt", "a/x.txt"]) := by
  constructor
  · intro db h f rest hf
    have hs : List.Sorted pathLe (getFilesByHash db h) :=
      List.sorted_insertionSort pathLe _
    rw [hf] at hs
    exact reduceShortest_spec rest f hs
  · decide

/-- C4 witness: the selection theorem applied to the scenario store, whose
by-hash lookup for digest d returns the three scenario rows in path
order. -/
theorem C4_keep_original_selection_witness :
    reduceShortest ⟨"1", "a/x.txt", "d", 100⟩
        [⟨"2", "b/x.txt", "d", 100⟩, ⟨"3", "c/longname/x.txt", "d", 100⟩] ∈
      (⟨"1", "a/x.txt", "d", 100⟩ : FileRecord) ::
        [⟨"2", "b/x.txt", "d", 100⟩, ⟨"3", "c/longname/x.txt", "d", 100⟩] ∧
    (∀ g ∈ (⟨"1", "a/x.txt", "d", 100⟩ : FileRecord) ::
        [⟨"2", "b/x.txt", "d", 100⟩, ⟨"3", "c/longname/x.txt", "d", 100⟩],
      (reduceShortest ⟨"1", "a/x.txt", "d", 100⟩
        [⟨"2", "b/x.txt", "d", 100⟩, ⟨"3", "c/longname/x.txt", "d", 100⟩]).path.length ≤
        g.path.length) ∧
    (∀ g ∈ (⟨"1", "a/x.txt", "d", 100⟩ : FileRecord) ::
        [⟨"2", "b/x.txt", "d", 100⟩, ⟨"3", "c/longname/x.txt", "d", 100⟩],
      g.path.length =
        (reduceShortest ⟨"1", "a/x.txt", "d", 100⟩
          [⟨"2", "b/x.txt", "d", 100⟩, ⟨"3", "c/longname/x.txt", "d", 100⟩]).path.length →
      strLe (reduceShortest ⟨"1", "a/x.txt", "d", 100⟩
          [⟨"2", "b/x.txt", "d", 100⟩, ⟨"3", "c/longname/x.txt", "d", 100⟩]).path
        g.path = true) :=
  C4_keep_original_selection.1 scenarioDb "d" ⟨"1", "a/x.txt", "d", 100⟩
    [⟨"2", "b/x.txt", "d", 100⟩, ⟨"3", "c/longname/x.txt", "d", 100⟩] (by decide)

/-- C7 (confirmed): the duplicate-groups query returns exactly the groups
of records sharing a digest whose member count is at least 2 — every
returned group has count at least 2 (never a group of 1) and its count is
the number of rows with its digest, its size and representative path come
from a member row, and every digest with at least 2 rows yields a returned
group. -/
theorem C7_duplicate_groups (db : DB) :
    (∀ g ∈ getDuplicates db, 2 ≤ g.count ∧
        g.count = (db.filter (fun r => r.hash == g.hash)).length ∧
        ∃ r ∈ db, r.hash = g.hash ∧ r.size = g.size ∧ r.path = g.path) ∧
    (∀ hs : String, 2 ≤ (db.filter (fun r => r.hash == hs)).length →
        ∃ g ∈ getDuplicates db, g.hash = hs ∧
          g.count = (db.filter (fun r => r.hash == hs)).length) := by
  constructor
  · intro g hg
    rw [getDuplicates, List.mem_insertionSort, List.mem_filterMap] at hg
    obtain ⟨h0, hh0, hmk⟩ := hg
    have hmk' : (match db.filter (fun r => r.hash == h0) with
        | [] => none
        | r :: rest =>
          if 1 < (r :: rest).length then
            some { path := r.path, hash := h0, size := r.size,
                   count := (r :: rest).length }
          else none) = some g := hmk
    cases hfil : db.filter (fun r => r.hash == h0) with
    | nil => rw [hfil] at hmk'; simp at hmk'
    | cons r restf =>
      rw [hfil] at hmk'
      simp only [] at hmk'
      by_cases hlen : 1 < (r :: restf).length
      · rw [if_pos hlen] at hmk'
        simp only [Option.some.injEq] at hmk'
        subst hmk'
        refine ⟨hlen, ?_, ?_⟩
        · show (r :: restf).length = (db.filter (fun r' => r'.hash == h0)).length
          rw [hfil]
        · have hr : r ∈ db.filter (fun r' => r'.hash == h0) := by
            rw [hfil]; exact List.mem_cons_self _ _
          obtain ⟨hrdb, hrh⟩ := List.mem_filter.1 hr
          exact ⟨r, hrdb, by simpa using hrh, rfl, rfl⟩
      · rw [if_neg hlen] at hmk'
        simp at hmk'
  · intro hs hlen
    cases hfil : db.filter (fun r => r.hash == hs) with
    | nil => rw [hfil] at hlen; simp at hlen
    | cons r restf =>
      have hr : r ∈ db.filter (fun r' => r'.hash == hs) := by
        rw [hfil]; exact List.mem_cons_self _ _
      obtain ⟨hrdb, hrh⟩ := List.mem_filter.1 hr
      have hh : hs ∈ (db.map (fun r' => r'.hash)).dedup := by
        rw [List.mem_dedup, List.mem_map]
        exact ⟨r, hrdb, by simpa using hrh⟩
      have hlen' : 1 < (r :: restf).length := by rw [hfil] at hlen; exact hlen
      refine ⟨{ path := r.path, hash := hs, size := r.size,
                count := (r :: restf).length }, ?_, rfl, ?_⟩
      · rw [getDuplicates, List.mem_insertionSort, List.mem_filterMap]
        refine ⟨hs, hh, ?_⟩
        show (match db.filter (fun r' => r'.hash == hs) with
          | [] => (none : Option DupGroup)
          | r0 :: rest0 =>
            if 1 < (r0 :: rest0).length then
              some { path := r0.path, hash := hs, size := r0.size,
                     count := (r0 :: rest0).length }
            else none) =
          some { path := r.path, hash := hs, size := r.size,
                 count := (r :: restf).length }
        rw [hfil]
        simp only []
        rw [if_pos hlen']
      · rfl

/-- C7 witness: the query theorem applied to the sample store, whose two
rows share the digest hello and form the single returned group. -/
theorem C7_duplicate_groups_witness :
    (2 ≤ (⟨"t/a/x.txt", "hello", 100, 2⟩ : DupGroup).count ∧
      (⟨"t/a/x.txt", "hello", 100, 2⟩ : DupGroup).count =
        (sampleDb.filter (fun r => r.hash == (⟨"t/a/x.txt", "hello", 100, 2⟩ : DupGroup).hash)).length ∧
      ∃ r ∈ sampleDb, r.hash = (⟨"t/a/x.txt", "hello", 100, 2⟩ : DupGroup).hash ∧
        r.size = (⟨"t/a/x.txt", "hello", 100, 2⟩ : DupGroup).size ∧
        r.path = (⟨"t/a/x.txt", "hello", 100, 2⟩ : DupGroup).path) ∧
    (∃ g ∈ getDuplicates sampleDb, g.hash = "hello" ∧
      g.count = (sampleDb.filter (fun r => r.hash == "hello")).length) :=
  ⟨(C7_duplicate_groups sampleDb).1 ⟨"t/a/x.txt", "hello", 100, 2⟩ (by decide),
   (C7_duplicate_groups sampleDb).2 "hello" (by decide)⟩
